import Mathlib

/-!
Verification of the TileBrushTool placement/grid/state core.

The Python source (tile_brush_tool/utils.py, operator.py, objects.py) is
shallowly embedded below.  Numeric coordinates handled by the grid and
ledger code are modelled as rationals; the rotation geometry, which uses
trigonometric functions, is modelled over the reals.  The host-application
collaborators (scene linking, mesh joining, drawing) are abstracted: a mesh
copy retained by an undo snapshot is modelled by an Option Unit tag, since
no core decision ever inspects the mesh contents, only whether a structure
exists.
-/

namespace TileBrush

/-- Python round() with no digits argument: round half to even, on an
ordered field with a floor.  Used computably at rationals and symbolically
at reals. -/
def pyRound {α : Type} [LinearOrderedField α] [FloorRing α] (q : α) : ℤ :=
  if q - (⌊q⌋ : α) < 1 / 2 then ⌊q⌋
  else if 1 / 2 < q - (⌊q⌋ : α) then ⌊q⌋ + 1
  else if ⌊q⌋ % 2 = 0 then ⌊q⌋ else ⌊q⌋ + 1

/-- Python round(x, 6): round to 6 decimal places, as used for the
canonical placement key. -/
def round6 (q : ℚ) : ℚ := (pyRound (q * 1000000) : ℚ) / 1000000

/-- A 3-component vector, mirroring mathutils.Vector. -/
@[ext]
structure V3 (α : Type) where
  x : α
  y : α
  z : α
deriving DecidableEq

/-- utils.py snap_to_grid: quantizes a location according to the current
movement speed (1.0 = normal, otherwise fast) and current tile size. -/
def snap_to_grid (movement_speed current_tile_size : ℚ) (location : V3 ℚ) : V3 ℚ :=
  if movement_speed = 1 then
    if current_tile_size = 1/2 then
      ⟨(pyRound (location.x * 4) : ℚ) / 4, (pyRound (location.y * 4) : ℚ) / 4,
       (pyRound (location.z * 4) : ℚ) / 4⟩
    else if current_tile_size = 1 then
      ⟨(pyRound (location.x * 4) : ℚ) / 4, (pyRound (location.y * 4) : ℚ) / 4,
       (pyRound (location.z * 4) : ℚ) / 4⟩
    else if current_tile_size = 2 then
      ⟨(pyRound (location.x * 2) : ℚ) / 2, (pyRound (location.y * 2) : ℚ) / 2,
       (pyRound (location.z * 2) : ℚ) / 2⟩
    else
      ⟨(pyRound location.x : ℚ), (pyRound location.y : ℚ), (pyRound location.z : ℚ)⟩
  else
    if current_tile_size = 1/2 then
      ⟨(pyRound (location.x * 4) : ℚ) / 4, (pyRound (location.y * 4) : ℚ) / 4,
       (pyRound (location.z * 4) : ℚ) / 4⟩
    else if current_tile_size = 1 then
      ⟨(pyRound (location.x - 1/2) : ℚ) + 1/2, (pyRound (location.y - 1/2) : ℚ) + 1/2,
       (pyRound (location.z - 1/2) : ℚ) + 1/2⟩
    else if current_tile_size = 2 then
      ⟨(pyRound location.x : ℚ), (pyRound location.y : ℚ), (pyRound location.z : ℚ)⟩
    else
      ⟨(pyRound (location.x / 2) : ℚ) * 2, (pyRound (location.y / 2) : ℚ) * 2,
       (pyRound (location.z / 2) : ℚ) * 2⟩

/-- operator.py modal, step selection (precision via Shift, else by
movement speed): precision steps 0.1, normal speed (1.0) steps 0.5
irrespective of tile size, fast speed steps the current tile size. -/
def movement_step (precision_mode : Bool) (movement_speed current_tile_size : ℚ) : ℚ :=
  if precision_mode then 1/10
  else if movement_speed = 1 then 1/2
  else current_tile_size

/-- operator.py modal, horizontal move: the location is advanced by the
direction vector times the step with the original Z restored, then snapped:
precision mode and fast mode use the exact position, normal mode snaps X/Y
to the 0.5-unit grid keeping Z. -/
def horizontal_move (precision_mode : Bool) (movement_speed current_tile_size : ℚ)
    (loc dir : V3 ℚ) : V3 ℚ :=
  let step := movement_step precision_mode movement_speed current_tile_size
  let moved : V3 ℚ := ⟨loc.x + dir.x * step, loc.y + dir.y * step, loc.z⟩
  if precision_mode then moved
  else if movement_speed = 1 then
    ⟨(pyRound (moved.x * 2) : ℚ) / 2, (pyRound (moved.y * 2) : ℚ) / 2, moved.z⟩
  else moved

/-- operator.py modal, vertical move (Q/E): Z changes by the same step as
horizontal movement (vertical_step = step); precision and fast modes keep
the exact position, normal mode snaps X/Y to the 0.5-unit grid and keeps
the exact Z. -/
def vertical_move (precision_mode : Bool) (movement_speed current_tile_size : ℚ)
    (loc : V3 ℚ) (updown : ℤ) : V3 ℚ :=
  let vertical_step := movement_step precision_mode movement_speed current_tile_size
  let moved : V3 ℚ := ⟨loc.x, loc.y, loc.z + updown * vertical_step⟩
  if precision_mode then moved
  else if movement_speed = 1 then
    ⟨(pyRound (moved.x * 2) : ℚ) / 2, (pyRound (moved.y * 2) : ℚ) / 2, moved.z⟩
  else moved

/-- A 3x3 matrix given by rows, mirroring a mathutils 3x3 matrix. -/
structure Mat3 where
  r0 : V3 ℚ
  r1 : V3 ℚ
  r2 : V3 ℚ
deriving DecidableEq

/-- Matrix transpose. -/
def mat_transpose (m : Mat3) : Mat3 :=
  ⟨⟨m.r0.x, m.r1.x, m.r2.x⟩, ⟨m.r0.y, m.r1.y, m.r2.y⟩, ⟨m.r0.z, m.r1.z, m.r2.z⟩⟩

/-- Matrix-vector product. -/
def mat_vec (m : Mat3) (v : V3 ℚ) : V3 ℚ :=
  ⟨m.r0.x * v.x + m.r0.y * v.y + m.r0.z * v.z,
   m.r1.x * v.x + m.r1.y * v.y + m.r1.z * v.z,
   m.r2.x * v.x + m.r2.y * v.y + m.r2.z * v.z⟩

/-- utils.py get_view_relative_vectors: none models missing region data
(and the exception fallback); otherwise the camera view matrix is
transposed, forward and right world directions are extracted, flattened to
the horizontal plane, and each is snapped to the dominant signed world X or
world Y axis. -/
def get_view_relative_vectors (region_data : Option Mat3) : V3 ℚ × V3 ℚ :=
  match region_data with
  | none => (⟨0, 1, 0⟩, ⟨1, 0, 0⟩)
  | some view_matrix =>
    let view_rot := mat_transpose view_matrix
    let forward_world := mat_vec view_rot ⟨0, 0, -1⟩
    let right_world := mat_vec view_rot ⟨1, 0, 0⟩
    let forward_horizontal : V3 ℚ := ⟨forward_world.x, forward_world.y, 0⟩
    let right_horizontal : V3 ℚ := ⟨right_world.x, right_world.y, 0⟩
    let forward_single_axis : V3 ℚ :=
      if |forward_horizontal.x| > |forward_horizontal.y| then
        ⟨if forward_horizontal.x > 0 then 1 else -1, 0, 0⟩
      else
        ⟨0, if forward_horizontal.y > 0 then 1 else -1, 0⟩
    let right_single_axis : V3 ℚ :=
      if |right_horizontal.x| > |right_horizontal.y| then
        ⟨if right_horizontal.x > 0 then 1 else -1, 0, 0⟩
      else
        ⟨0, if right_horizontal.y > 0 then 1 else -1, 0⟩
    (forward_single_axis, right_single_axis)

/-- A vector is a signed unit vector along world X or world Y. -/
def isCardinalAxis (v : V3 ℚ) : Prop :=
  v = ⟨1, 0, 0⟩ ∨ v = ⟨-1, 0, 0⟩ ∨ v = ⟨0, 1, 0⟩ ∨ v = ⟨0, -1, 0⟩

/-- math.radians: degrees to radians. -/
noncomputable def radians (d : ℝ) : ℝ := d * Real.pi / 180

/-- Rotation about the world X axis applied to a vector. -/
noncomputable def rotX (t : ℝ) (v : V3 ℝ) : V3 ℝ :=
  ⟨v.x, Real.cos t * v.y - Real.sin t * v.z, Real.sin t * v.y + Real.cos t * v.z⟩

/-- Rotation about the world Y axis applied to a vector. -/
noncomputable def rotY (t : ℝ) (v : V3 ℝ) : V3 ℝ :=
  ⟨Real.cos t * v.x + Real.sin t * v.z, v.y, -Real.sin t * v.x + Real.cos t * v.z⟩

/-- Rotation about the world Z axis applied to a vector. -/
noncomputable def rotZ (t : ℝ) (v : V3 ℝ) : V3 ℝ :=
  ⟨Real.cos t * v.x - Real.sin t * v.y, Real.sin t * v.x + Real.cos t * v.y, v.z⟩

/-- mathutils Euler XYZ to_matrix applied to a vector: rotate about X,
then Y, then Z (matrix Rz Ry Rx). -/
noncomputable def eulerApply (e : V3 ℝ) (v : V3 ℝ) : V3 ℝ :=
  rotZ e.z (rotY e.y (rotX e.x v))

/-- objects.py TILE_SIZES. -/
def TILE_SIZES : List ℚ := [1/2, 1, 2, 4]

/-- Tile size at an index, as a real (indices in the tool are always
0..3). -/
noncomputable def tileSizeR (idx : ℕ) : ℝ := ((TILE_SIZES.getD idx 0 : ℚ) : ℝ)

/-- objects.py CUBE_FACES: the six face presets as Euler angles with
their names. -/
noncomputable def CUBE_FACES : List (V3 ℝ × String) :=
  [(⟨0, 0, 0⟩, "Bottom"),
   (⟨radians 180, 0, 0⟩, "Top"),
   (⟨radians 90, 0, 0⟩, "Front"),
   (⟨radians (-90), 0, 0⟩, "Back"),
   (⟨0, radians (-90), 0⟩, "Right"),
   (⟨0, radians 90, 0⟩, "Left")]

/-- The Euler rotation of face preset n (the tool only ever indexes with
n < 6). -/
noncomputable def presetRot (n : ℕ) : V3 ℝ := (CUBE_FACES.getD n (⟨0, 0, 0⟩, "")).1

/-- operator.py modal, R key: add 45 degrees (or -45 with Ctrl) to the Z
component of the current preview Euler rotation. -/
noncomputable def spin_z (ctrl : Bool) (rot : V3 ℝ) : V3 ℝ :=
  ⟨rot.x, rot.y, rot.z + (if ctrl then radians (-45) else radians 45)⟩

/-- operator.py modal, TAB key: advance the rotation state modulo 6 and
assign that face preset rotation to the preview outright (the current
preview rotation is not consulted). -/
noncomputable def tab_transition (rotation_state : ℕ) : ℕ × V3 ℝ :=
  ((rotation_state + 1) % 6, presetRot ((rotation_state + 1) % 6))

/-- operator.py modal, number keys 1-6: set the rotation state to the
chosen face and assign that preset rotation to the preview outright. -/
noncomputable def select_face_transition (face_number : ℕ) : ℕ × V3 ℝ :=
  (face_number, presetRot face_number)

/-- utils.py get_green_face_world_position: the world position of the
placement face, the preview location plus the rotated local offset
(0, 0, -size/2). -/
noncomputable def get_green_face_world_position (current_tile_size : ℝ)
    (location : V3 ℝ) (rotation_euler : V3 ℝ) : V3 ℝ :=
  let half_size := current_tile_size / 2
  let rotated_offset := eulerApply rotation_euler ⟨0, 0, -half_size⟩
  ⟨location.x + rotated_offset.x, location.y + rotated_offset.y,
   location.z + rotated_offset.z⟩

/-- operator.py change_tile_size: cycle the size index with wraparound
(Python (i-1) % 4 equals (i+3) % 4 on naturals), read the current green
face height, and position the new preview center so that
center Z = preserved face height + half of the new size; in normal speed
X/Y snap to the 0.5 grid, in fast speed they are kept exactly.  Returns
the new size index and the new preview base location. -/
noncomputable def change_tile_size (movement_speed : ℚ) (tile_size_index : ℕ)
    (location rotation : V3 ℝ) (direction : ℤ) : ℕ × V3 ℝ :=
  let new_index := if direction > 0 then (tile_size_index + 1) % 4
                   else (tile_size_index + 3) % 4
  if new_index = tile_size_index then (tile_size_index, location)
  else
    let preserve_height :=
      (get_green_face_world_position (tileSizeR tile_size_index) location rotation).z
    let new_half_size := tileSizeR new_index / 2
    let new_cube_center_z := preserve_height + new_half_size
    let snapped_base : V3 ℝ :=
      if movement_speed = 1 then
        ⟨(pyRound (location.x * 2) : ℝ) / 2, (pyRound (location.y * 2) : ℝ) / 2,
         new_cube_center_z⟩
      else
        ⟨location.x, location.y, new_cube_center_z⟩
    (new_index, snapped_base)

/-- The canonical placement key of operator.py: face position and Euler
rotation rounded to 6 decimal places, the tile size index, and the
inverted flag. -/
@[ext]
structure PosKey where
  px : ℚ
  py : ℚ
  pz : ℚ
  rx : ℚ
  ry : ℚ
  rz : ℚ
  size_index : ℕ
  inverted : Bool
deriving DecidableEq

/-- Build the canonical placement key from the raw placement-face world
position and preview rotation, exactly as in
place_tile_at_current_position and delete_tile_at_current_position. -/
def mkPosKey (fx fy fz rx ry rz : ℚ) (size_index : ℕ) (inverted : Bool) : PosKey :=
  ⟨round6 fx, round6 fy, round6 fz, round6 rx, round6 ry, round6 rz,
   size_index, inverted⟩

/-- One undo snapshot: the retained structural mesh copy (abstracted to an
Option Unit tag; none is the sentinel for no structure yet) paired with the
copy of the placed-tile set taken at the same moment.  operator.py keeps
these in the two parallel lists undo_history and undo_positions, always
pushed and popped together. -/
structure UndoSnap where
  mesh : Option Unit
  positions : Finset PosKey
deriving DecidableEq

/-- The ledger-relevant session state of the operator: the placed-tile
set, the undo log, whether the master structure object exists, and the
last-placed cache. -/
@[ext]
structure ToolState where
  placed_tiles : Finset PosKey
  undo_log : List UndoSnap
  master_object : Option Unit
  last_placed_position : Option ((ℚ × ℚ × ℚ) × (ℚ × ℚ × ℚ) × ℕ)
deriving DecidableEq

/-- State right after invoke: no tiles, empty undo history, no structure,
no last placement. -/
def initState : ToolState :=
  ⟨∅, [], none, none⟩

/-- operator.py store_undo_snapshot: with no structure, append a sentinel
snapshot (no cap is applied on this branch); with a structure, append a
mesh-copy snapshot and, if the history length now exceeds 20, evict the
oldest entry (index 0). -/
def store_undo_snapshot (s : ToolState) : ToolState :=
  match s.master_object with
  | none =>
    { s with undo_log := s.undo_log ++ [⟨none, s.placed_tiles⟩] }
  | some _ =>
    let log := s.undo_log ++ [⟨some (), s.placed_tiles⟩]
    { s with undo_log := if log.length > 20 then log.tail else log }

/-- The arguments a commit or delete consumes: the placement-face world
position computed from the preview, the preview rotation, the size index
and the inverted flag. -/
structure PoseArgs where
  fx : ℚ
  fy : ℚ
  fz : ℚ
  rx : ℚ
  ry : ℚ
  rz : ℚ
  size_index : ℕ
  inverted : Bool
deriving DecidableEq

/-- The canonical key of a pose. -/
def poseKey (a : PoseArgs) : PosKey :=
  mkPosKey a.fx a.fy a.fz a.rx a.ry a.rz a.size_index a.inverted

/-- operator.py place_tile_at_current_position: compute the canonical key;
if it is already placed, return False with no mutation; otherwise push an
undo snapshot, instantiate the tile (the first tile becomes the master
object, later ones are joined into it, so the master exists afterwards
either way), record the key in the placed set and cache the last placed
pose.  Returns the success flag and the new state. -/
def place_tile_at_current_position (s : ToolState) (a : PoseArgs) : Bool × ToolState :=
  let pos_key := poseKey a
  if pos_key ∈ s.placed_tiles then (false, s)
  else
    let s1 := store_undo_snapshot s
    (true,
      { s1 with
        master_object := some (),
        placed_tiles := insert pos_key s1.placed_tiles,
        last_placed_position := some ((a.fx, a.fy, a.fz), (a.rx, a.ry, a.rz),
          a.size_index) })

/-- operator.py rebuild_structure_mesh: the master object is removed and
rebuilt from the placed-tile set; afterwards it exists exactly when some
tile remains. -/
def rebuild_structure_mesh (s : ToolState) : ToolState :=
  { s with master_object := if s.placed_tiles = ∅ then none else some () }

/-- operator.py delete_tile_at_current_position: compute the same
canonical key as a commit; if a tile is placed there, push an undo
snapshot, remove the key, rebuild the structure from the remaining keys
and clear the last-placed cache; otherwise do nothing.  The Boolean
reports whether a rebuild was requested. -/
def delete_tile_at_current_position (s : ToolState) (a : PoseArgs) : Bool × ToolState :=
  let pos_key := poseKey a
  if pos_key ∈ s.placed_tiles then
    let s1 := store_undo_snapshot s
    let s2 := { s1 with placed_tiles := s1.placed_tiles.erase pos_key }
    let s3 := rebuild_structure_mesh s2
    (true, { s3 with last_placed_position := none })
  else (false, s)

/-- operator.py undo_placement: with empty history return False; otherwise
pop the most recent snapshot.  A sentinel snapshot restores the
no-structure state with an empty placed set; a mesh snapshot restores the
recorded placed set provided the master object still exists (if it does
not, the function reports failure, with the snapshot already popped, and
does not clear the last-placed cache). -/
def undo_placement (s : ToolState) : Bool × ToolState :=
  match s.undo_log.getLast? with
  | none => (false, s)
  | some snap =>
    let log := s.undo_log.dropLast
    match snap.mesh with
    | none =>
      (true,
        { s with
          undo_log := log
          master_object := none
          placed_tiles := ∅
          last_placed_position := none })
    | some _ =>
      match s.master_object with
      | some _ =>
        (true,
          { s with
            undo_log := log
            placed_tiles := snap.positions
            last_placed_position := none })
      | none => (false, { s with undo_log := log })

/-- Iterated undo. -/
def undoN : ℕ → ToolState → ToolState
  | 0, s => s
  | n + 1, s => undoN n (undo_placement s).2

/-- Run a list of commits in order. -/
def commits : List PoseArgs → ToolState → ToolState
  | [], s => s
  | a :: rest, s => commits rest (place_tile_at_current_position s a).2

/-- Every commit in the list succeeds when run in order. -/
def commits_succeed : List PoseArgs → ToolState → Bool
  | [], _ => true
  | a :: rest, s =>
    (place_tile_at_current_position s a).1
      && commits_succeed rest (place_tile_at_current_position s a).2

/-- States reachable from the initial state by commits, deletes and
undos. -/
inductive Reachable : ToolState → Prop
  | init : Reachable initState
  | place (s : ToolState) (a : PoseArgs) :
      Reachable s → Reachable (place_tile_at_current_position s a).2
  | delete (s : ToolState) (a : PoseArgs) :
      Reachable s → Reachable (delete_tile_at_current_position s a).2
  | undo (s : ToolState) :
      Reachable s → Reachable (undo_placement s).2

/-- The structural invariant of reachable states: the master object exists
exactly when some tile is placed, and every snapshot in the undo log is a
sentinel exactly when its recorded placed set is empty. -/
def Inv (s : ToolState) : Prop :=
  (s.master_object = none ↔ s.placed_tiles = ∅) ∧
  ∀ snap ∈ s.undo_log, (snap.mesh = none ↔ snap.positions = ∅)

/-- One commit-then-delete cycle at a fixed pose, used to exhibit the
uncapped growth of the undo history. -/
def leakArgs : PoseArgs := ⟨0, 0, 0, 0, 0, 0, 2, false⟩

/-- One commit-delete cycle at leakArgs. -/
def leakStep (s : ToolState) : ToolState :=
  (delete_tile_at_current_position
    (place_tile_at_current_position s leakArgs).2 leakArgs).2

/-- n commit-delete cycles from the initial state. -/
def leakState (n : ℕ) : ToolState := leakStep^[n] initState

/-- The undo log produced by n commit-delete cycles: each cycle appends a
sentinel snapshot (from the commit, taken with no structure) and a mesh
snapshot (from the delete, taken with the single tile placed). -/
def leakLog : ℕ → List UndoSnap
  | 0 => []
  | n + 1 => leakLog n ++ [⟨none, ∅⟩, ⟨some (), {poseKey leakArgs}⟩]

/-- A family of poses at distinct integer X positions, used to
instantiate theorems on concrete inputs. -/
def wArgs (n : ℕ) : PoseArgs := ⟨(n : ℚ), 0, 0, 0, 0, 0, 2, false⟩

/-- A coordinate v is the input coordinate w rounded to the grid of pitch g:
it is an integer multiple of g and within g/2 of w. -/
def onGridCoord (g v w : ℚ) : Prop := (∃ k : ℤ, v = k * g) ∧ |v - w| ≤ g / 2

/-- All three coordinates of v are the coordinates of w rounded to the grid
of pitch g. -/
def onGridV3 (g : ℚ) (v w : V3 ℚ) : Prop :=
  onGridCoord g v.x w.x ∧ onGridCoord g v.y w.y ∧ onGridCoord g v.z w.z

end TileBrush

namespace TileBrush

theorem pyRound_le {α : Type} [LinearOrderedField α] [FloorRing α] (q : α) :
    |(pyRound q : α) - q| ≤ 1 / 2 := by
  unfold pyRound
  have h0 : ((⌊q⌋ : ℤ) : α) ≤ q := Int.floor_le q
  have h1 : q < (⌊q⌋ : α) + 1 := Int.lt_floor_add_one q
  split_ifs with hlt hgt hev <;> rw [abs_le] <;> constructor <;> push_cast <;> linarith

theorem pyRound_intCast {α : Type} [LinearOrderedField α] [FloorRing α] (k : ℤ) :
    pyRound (k : α) = k := by
  unfold pyRound
  simp

theorem pyRound_div_onGrid (x : ℚ) (m : ℚ) (hm : 0 < m) :
    onGridCoord (1 / m) ((pyRound (x * m) : ℚ) / m) x := by
  constructor
  · exact ⟨pyRound (x * m), (mul_one_div _ _).symm⟩
  · have h := pyRound_le (x * m)
    have hm0 : m ≠ 0 := ne_of_gt hm
    rw [show (pyRound (x * m) : ℚ) / m - x = ((pyRound (x * m) : ℚ) - x * m) / m by
      field_simp; ring]
    rw [show (1 : ℚ) / m / 2 = (1 / 2) / m by ring]
    rw [abs_div, abs_of_pos hm]
    exact (div_le_div_iff_of_pos_right hm).mpr h

theorem pyRound_onGrid_one (x : ℚ) : onGridCoord 1 ((pyRound x : ℚ)) x := by
  constructor
  · exact ⟨pyRound x, by ring⟩
  · have h := pyRound_le x
    linarith [abs_nonneg ((pyRound x : ℚ) - x), h]

theorem snap_normal_half (l : V3 ℚ) :
    snap_to_grid 1 (1/2) l =
      ⟨(pyRound (l.x * 4) : ℚ) / 4, (pyRound (l.y * 4) : ℚ) / 4,
       (pyRound (l.z * 4) : ℚ) / 4⟩ := by
  simp [snap_to_grid]

theorem snap_normal_one (l : V3 ℚ) :
    snap_to_grid 1 1 l =
      ⟨(pyRound (l.x * 4) : ℚ) / 4, (pyRound (l.y * 4) : ℚ) / 4,
       (pyRound (l.z * 4) : ℚ) / 4⟩ := by
  norm_num [snap_to_grid]

theorem snap_normal_two (l : V3 ℚ) :
    snap_to_grid 1 2 l =
      ⟨(pyRound (l.x * 2) : ℚ) / 2, (pyRound (l.y * 2) : ℚ) / 2,
       (pyRound (l.z * 2) : ℚ) / 2⟩ := by
  norm_num [snap_to_grid]

theorem snap_normal_four (l : V3 ℚ) :
    snap_to_grid 1 4 l =
      ⟨(pyRound l.x : ℚ), (pyRound l.y : ℚ), (pyRound l.z : ℚ)⟩ := by
  norm_num [snap_to_grid]

theorem onGrid_quarter (x : ℚ) : onGridCoord (1/4) ((pyRound (x * 4) : ℚ) / 4) x :=
  pyRound_div_onGrid x 4 (by norm_num)

theorem onGrid_half (x : ℚ) : onGridCoord (1/2) ((pyRound (x * 2) : ℚ) / 2) x :=
  pyRound_div_onGrid x 2 (by norm_num)

theorem pyRound_mul_div_cancel (x : ℚ) (m : ℚ) (hm : m ≠ 0) :
    pyRound ((pyRound (x * m) : ℚ) / m * m) = pyRound (x * m) := by
  rw [div_mul_cancel₀ _ hm, pyRound_intCast]

theorem quarter_coord_idem (x : ℚ) :
    (pyRound ((pyRound (x * 4) : ℚ) / 4 * 4) : ℚ) / 4 = (pyRound (x * 4) : ℚ) / 4 := by
  rw [pyRound_mul_div_cancel x 4 (by norm_num)]

theorem half_coord_idem (x : ℚ) :
    (pyRound ((pyRound (x * 2) : ℚ) / 2 * 2) : ℚ) / 2 = (pyRound (x * 2) : ℚ) / 2 := by
  rw [pyRound_mul_div_cancel x 2 (by norm_num)]

theorem whole_coord_idem (x : ℚ) :
    (pyRound ((pyRound x : ℚ)) : ℚ) = (pyRound x : ℚ) := by
  rw [pyRound_intCast]

theorem offset_coord_idem (x : ℚ) :
    (pyRound (((pyRound (x - 1/2) : ℚ) + 1/2) - 1/2) : ℚ) + 1/2
      = (pyRound (x - 1/2) : ℚ) + 1/2 := by
  rw [add_sub_cancel_right, pyRound_intCast]

theorem even_coord_idem (x : ℚ) :
    (pyRound ((pyRound (x / 2) : ℚ) * 2 / 2) : ℚ) * 2 = (pyRound (x / 2) : ℚ) * 2 := by
  rw [mul_div_cancel_right₀ _ (two_ne_zero), pyRound_intCast]

theorem snap_normal_other (s : ℚ) (h1 : s ≠ 1/2) (h2 : s ≠ 1) (h3 : s ≠ 2) (l : V3 ℚ) :
    snap_to_grid 1 s l = ⟨(pyRound l.x : ℚ), (pyRound l.y : ℚ), (pyRound l.z : ℚ)⟩ := by
  rw [snap_to_grid, if_pos rfl, if_neg h1, if_neg h2, if_neg h3]

theorem snap_fast_half (sp : ℚ) (hsp : sp ≠ 1) (l : V3 ℚ) :
    snap_to_grid sp (1/2) l =
      ⟨(pyRound (l.x * 4) : ℚ) / 4, (pyRound (l.y * 4) : ℚ) / 4,
       (pyRound (l.z * 4) : ℚ) / 4⟩ := by
  rw [snap_to_grid, if_neg hsp, if_pos rfl]

theorem snap_fast_one (sp : ℚ) (hsp : sp ≠ 1) (l : V3 ℚ) :
    snap_to_grid sp 1 l =
      ⟨(pyRound (l.x - 1/2) : ℚ) + 1/2, (pyRound (l.y - 1/2) : ℚ) + 1/2,
       (pyRound (l.z - 1/2) : ℚ) + 1/2⟩ := by
  rw [snap_to_grid, if_neg hsp, if_neg (by norm_num), if_pos rfl]

theorem snap_fast_two (sp : ℚ) (hsp : sp ≠ 1) (l : V3 ℚ) :
    snap_to_grid sp 2 l =
      ⟨(pyRound l.x : ℚ), (pyRound l.y : ℚ), (pyRound l.z : ℚ)⟩ := by
  rw [snap_to_grid, if_neg hsp, if_neg (by norm_num), if_neg (by norm_num), if_pos rfl]

theorem snap_fast_other (sp s : ℚ) (hsp : sp ≠ 1) (h1 : s ≠ 1/2) (h2 : s ≠ 1)
    (h3 : s ≠ 2) (l : V3 ℚ) :
    snap_to_grid sp s l =
      ⟨(pyRound (l.x / 2) : ℚ) * 2, (pyRound (l.y / 2) : ℚ) * 2,
       (pyRound (l.z / 2) : ℚ) * 2⟩ := by
  rw [snap_to_grid, if_neg hsp, if_neg h1, if_neg h2, if_neg h3]

/-- Claim C7: snapping is idempotent: for every location, every tile size
and every movement speed (in particular the Normal and Fast modes of the
tool, including the offset grid used by Fast mode at size 1.0), applying
snap_to_grid to an already-snapped point returns it unchanged. -/
theorem snap_to_grid_idempotent (movement_speed current_tile_size : ℚ) (l : V3 ℚ) :
    snap_to_grid movement_speed current_tile_size
        (snap_to_grid movement_speed current_tile_size l)
      = snap_to_grid movement_speed current_tile_size l := by
  by_cases hsp : movement_speed = 1
  · subst hsp
    by_cases h1 : current_tile_size = 1/2
    · subst h1
      rw [snap_normal_half, snap_normal_half]
      exact V3.ext (quarter_coord_idem _) (quarter_coord_idem _) (quarter_coord_idem _)
    · by_cases h2 : current_tile_size = 1
      · subst h2
        rw [snap_normal_one, snap_normal_one]
        exact V3.ext (quarter_coord_idem _) (quarter_coord_idem _) (quarter_coord_idem _)
      · by_cases h3 : current_tile_size = 2
        · subst h3
          rw [snap_normal_two, snap_normal_two]
          exact V3.ext (half_coord_idem _) (half_coord_idem _) (half_coord_idem _)
        · rw [snap_normal_other _ h1 h2 h3, snap_normal_other _ h1 h2 h3]
          exact V3.ext (whole_coord_idem _) (whole_coord_idem _) (whole_coord_idem _)
  · by_cases h1 : current_tile_size = 1/2
    · subst h1
      rw [snap_fast_half _ hsp, snap_fast_half _ hsp]
      exact V3.ext (quarter_coord_idem _) (quarter_coord_idem _) (quarter_coord_idem _)
    · by_cases h2 : current_tile_size = 1
      · subst h2
        rw [snap_fast_one _ hsp, snap_fast_one _ hsp]
        exact V3.ext (offset_coord_idem _) (offset_coord_idem _) (offset_coord_idem _)
      · by_cases h3 : current_tile_size = 2
        · subst h3
          rw [snap_fast_two _ hsp, snap_fast_two _ hsp]
          exact V3.ext (whole_coord_idem _) (whole_coord_idem _) (whole_coord_idem _)
        · rw [snap_fast_other _ _ hsp h1 h2 h3, snap_fast_other _ _ hsp h1 h2 h3]
          exact V3.ext (even_coord_idem _) (even_coord_idem _) (even_coord_idem _)

/-- Claim C6: in Normal speed mode (movement_speed = 1.0), snap_to_grid
rounds every coordinate to the nearest 0.25 for tile sizes 0.5 and 1.0, to
the nearest 0.5 for size 2.0, and to the nearest 1.0 for size 4.0. -/
theorem normal_mode_snap_grids (l : V3 ℚ) :
    onGridV3 (1/4) (snap_to_grid 1 (1/2) l) l ∧
    onGridV3 (1/4) (snap_to_grid 1 1 l) l ∧
    onGridV3 (1/2) (snap_to_grid 1 2 l) l ∧
    onGridV3 1 (snap_to_grid 1 4 l) l := by
  rw [snap_normal_half, snap_normal_one, snap_normal_two, snap_normal_four]
  exact ⟨⟨onGrid_quarter _, onGrid_quarter _, onGrid_quarter _⟩,
         ⟨onGrid_quarter _, onGrid_quarter _, onGrid_quarter _⟩,
         ⟨onGrid_half _, onGrid_half _, onGrid_half _⟩,
         ⟨pyRound_onGrid_one _, pyRound_onGrid_one _, pyRound_onGrid_one _⟩⟩

/-- Claim C8: the movement step is 0.5 in Normal mode (speed 1.0)
irrespective of tile size, the current tile size in Fast mode (speed 2.0),
and 0.1 in Precision mode; the vertical move displaces Z by exactly that
same step; and in Fast mode a horizontal move lands on the exact unsnapped
sum of the location and the step vector. -/
theorem movement_step_sizes (size sp : ℚ) (l dir : V3 ℚ) (updown : ℤ) :
    movement_step false 1 size = 1/2 ∧
    movement_step false 2 size = size ∧
    movement_step true sp size = 1/10 ∧
    (vertical_move false 1 size l updown).z
      = l.z + updown * movement_step false 1 size ∧
    (vertical_move false 2 size l updown).z
      = l.z + updown * movement_step false 2 size ∧
    (vertical_move true sp size l updown).z
      = l.z + updown * movement_step true sp size ∧
    horizontal_move false 2 size l dir
      = ⟨l.x + dir.x * size, l.y + dir.y * size, l.z⟩ := by
  refine ⟨rfl, ?_, rfl, ?_, ?_, rfl, ?_⟩
  · rw [movement_step, if_neg (Bool.false_ne_true ∘ id), if_neg (by norm_num)]
  · rw [vertical_move]; norm_num
  · rw [vertical_move]; norm_num [movement_step]
  · rw [horizontal_move]; norm_num [movement_step]

theorem radians_180_eq_pi : radians 180 = Real.pi := by
  rw [radians]; ring

theorem radians_45_pos : 0 < radians 45 := by
  rw [radians]; positivity

theorem presetRot_zero : presetRot 0 = ⟨0, 0, 0⟩ := by
  simp [presetRot, CUBE_FACES]

theorem presetRot_one : presetRot 1 = ⟨radians 180, 0, 0⟩ := by
  simp [presetRot, CUBE_FACES]

theorem presetRot_z_eq_zero (n : ℕ) : (presetRot n).z = 0 := by
  rcases n with _|_|_|_|_|_|n <;> simp [presetRot, CUBE_FACES]

theorem euler_bottom_spin (zspin w : ℝ) :
    eulerApply ⟨0, 0, zspin⟩ ⟨0, 0, w⟩ = ⟨0, 0, w⟩ := by
  simp [eulerApply, rotX, rotY, rotZ]

theorem tileSize_change_guard (idx : ℕ) (direction : ℤ) :
    (if direction > 0 then (idx + 1) % 4 else (idx + 3) % 4) ≠ idx := by
  split_ifs <;> omega

/-- Claim C4 (amended): for the Bottom face preset (preset 0, any
accumulated Z-spin), any tile-size index, any direction and either speed
mode, change_tile_size preserves the placement-face world Z coordinate
exactly, and sets the new center height to the preserved face height plus
half of the new size.  (The counterexample below shows the other presets
do not preserve the face height.) -/
theorem change_size_preserves_face_height_bottom (movement_speed : ℚ)
    (tile_size_index : ℕ) (location : V3 ℝ) (zspin : ℝ) (direction : ℤ) :
    (get_green_face_world_position
        (tileSizeR (change_tile_size movement_speed tile_size_index location
            ⟨0, 0, zspin⟩ direction).1)
        (change_tile_size movement_speed tile_size_index location
            ⟨0, 0, zspin⟩ direction).2
        ⟨0, 0, zspin⟩).z
      = (get_green_face_world_position (tileSizeR tile_size_index) location
          ⟨0, 0, zspin⟩).z ∧
    (change_tile_size movement_speed tile_size_index location
        ⟨0, 0, zspin⟩ direction).2.z
      = (get_green_face_world_position (tileSizeR tile_size_index) location
          ⟨0, 0, zspin⟩).z
        + tileSizeR (change_tile_size movement_speed tile_size_index location
            ⟨0, 0, zspin⟩ direction).1 / 2 := by
  simp only [change_tile_size, if_neg (tileSize_change_guard tile_size_index direction),
             get_green_face_world_position, euler_bottom_spin]
  split_ifs <;> constructor <;> dsimp only <;> ring

/-- Claim C4 counterexample: with the Top preset (preset 1), fast speed,
size index 2 (size 2.0), preview centered at the origin, changing size by
+1 (to size 4.0) moves the placement-face world Z from 1 to 5: the face
height is not preserved for rotated presets. -/
theorem change_size_face_height_counterexample :
    (change_tile_size 2 2 ⟨0, 0, 0⟩ (presetRot 1) 1).1 = 3 ∧
    (get_green_face_world_position (tileSizeR 2) ⟨0, 0, 0⟩ (presetRot 1)).z = 1 ∧
    (get_green_face_world_position
        (tileSizeR (change_tile_size 2 2 ⟨0, 0, 0⟩ (presetRot 1) 1).1)
        (change_tile_size 2 2 ⟨0, 0, 0⟩ (presetRot 1) 1).2
        (presetRot 1)).z = 5 ∧
    (get_green_face_world_position
        (tileSizeR (change_tile_size 2 2 ⟨0, 0, 0⟩ (presetRot 1) 1).1)
        (change_tile_size 2 2 ⟨0, 0, 0⟩ (presetRot 1) 1).2
        (presetRot 1)).z
      ≠ (get_green_face_world_position (tileSizeR 2) ⟨0, 0, 0⟩ (presetRot 1)).z := by
  have hts2 : tileSizeR 2 = 2 := by norm_num [tileSizeR, TILE_SIZES]
  have hts3 : tileSizeR 3 = 4 := by norm_num [tileSizeR, TILE_SIZES]
  have hface : ∀ c z : ℝ,
      (get_green_face_world_position c ⟨0, 0, z⟩ (presetRot 1)).z = z + c / 2 := by
    intro c z
    rw [presetRot_one, radians_180_eq_pi]
    simp [get_green_face_world_position, eulerApply, rotX, rotY, rotZ]
    try ring
  have hchange : change_tile_size 2 2 ⟨0, 0, 0⟩ (presetRot 1) 1 = (3, ⟨0, 0, 3⟩) := by
    rw [change_tile_size]
    norm_num [hface, hts2, hts3]
  rw [hchange, hts2, hts3]
  rw [hface, hface]
  norm_num

/-- Claim C5 (amended): the R key adds plus or minus 45 degrees to the Z
component of the preview Euler rotation, but a TAB cycle or a direct face
selection assigns the bare preset rotation outright — every preset has Z
component 0, so the accumulated Z offset is discarded rather than layered
on top of the new preset. -/
theorem spin_discarded_on_preset_change (rot : V3 ℝ) (rotation_state face_number : ℕ) :
    spin_z false rot = ⟨rot.x, rot.y, rot.z + radians 45⟩ ∧
    spin_z true rot = ⟨rot.x, rot.y, rot.z + radians (-45)⟩ ∧
    tab_transition rotation_state
      = ((rotation_state + 1) % 6, presetRot ((rotation_state + 1) % 6)) ∧
    select_face_transition face_number = (face_number, presetRot face_number) ∧
    (tab_transition rotation_state).2.z = 0 ∧
    (select_face_transition face_number).2.z = 0 := by
  refine ⟨rfl, rfl, rfl, rfl, ?_, ?_⟩
  · exact presetRot_z_eq_zero _
  · exact presetRot_z_eq_zero _

/-- Claim C5 counterexample: starting from the Bottom preset, one spinZ
step accumulates a Z offset of 45 degrees, but the next TAB cycle yields
the bare Top preset with Z component 0, not the preset with the offset
still applied. -/
theorem spin_lost_counterexample :
    (tab_transition 0).2 = presetRot 1 ∧
    (spin_z false (presetRot 0)).z = radians 45 ∧
    (tab_transition 0).2.z ≠ (spin_z false (presetRot 0)).z := by
  have h1 : (spin_z false (presetRot 0)).z = radians 45 := by
    rw [presetRot_zero]
    show (0 : ℝ) + radians 45 = radians 45
    exact zero_add _
  have h2 : (tab_transition 0).2.z = 0 := presetRot_z_eq_zero ((0 + 1) % 6)
  exact ⟨rfl, h1, by rw [h1, h2]; exact ne_of_lt radians_45_pos⟩

theorem store_snapshot_placed (s : ToolState) :
    (store_undo_snapshot s).placed_tiles = s.placed_tiles := by
  cases hm : s.master_object <;> simp [store_undo_snapshot, hm]

theorem store_snapshot_master (s : ToolState) :
    (store_undo_snapshot s).master_object = s.master_object := by
  cases hm : s.master_object <;> simp [store_undo_snapshot, hm]

theorem store_snapshot_last (s : ToolState) :
    (store_undo_snapshot s).last_placed_position = s.last_placed_position := by
  cases hm : s.master_object <;> simp [store_undo_snapshot, hm]

theorem store_snapshot_log_none (s : ToolState) (hm : s.master_object = none) :
    (store_undo_snapshot s).undo_log = s.undo_log ++ [⟨none, s.placed_tiles⟩] := by
  simp [store_undo_snapshot, hm]

theorem store_snapshot_log_some (s : ToolState) (hm : s.master_object = some ()) :
    (store_undo_snapshot s).undo_log =
      if (s.undo_log ++ [(⟨some (), s.placed_tiles⟩ : UndoSnap)]).length > 20
      then (s.undo_log ++ [(⟨some (), s.placed_tiles⟩ : UndoSnap)]).tail
      else s.undo_log ++ [(⟨some (), s.placed_tiles⟩ : UndoSnap)] := by
  simp [store_undo_snapshot, hm]

theorem place_occupied (s : ToolState) (a : PoseArgs)
    (h : poseKey a ∈ s.placed_tiles) :
    place_tile_at_current_position s a = (false, s) := by
  simp [place_tile_at_current_position, h]

theorem place_free (s : ToolState) (a : PoseArgs)
    (h : poseKey a ∉ s.placed_tiles) :
    (place_tile_at_current_position s a).1 = true ∧
    (place_tile_at_current_position s a).2.placed_tiles
      = insert (poseKey a) s.placed_tiles ∧
    (place_tile_at_current_position s a).2.undo_log
      = (store_undo_snapshot s).undo_log ∧
    (place_tile_at_current_position s a).2.master_object = some () ∧
    (place_tile_at_current_position s a).2.last_placed_position
      = some ((a.fx, a.fy, a.fz), (a.rx, a.ry, a.rz), a.size_index) := by
  simp [place_tile_at_current_position, h, store_snapshot_placed]

theorem delete_absent (s : ToolState) (a : PoseArgs)
    (h : poseKey a ∉ s.placed_tiles) :
    delete_tile_at_current_position s a = (false, s) := by
  simp [delete_tile_at_current_position, h]

theorem delete_present (s : ToolState) (a : PoseArgs)
    (h : poseKey a ∈ s.placed_tiles) :
    (delete_tile_at_current_position s a).1 = true ∧
    (delete_tile_at_current_position s a).2.placed_tiles
      = s.placed_tiles.erase (poseKey a) ∧
    (delete_tile_at_current_position s a).2.undo_log
      = (store_undo_snapshot s).undo_log ∧
    (delete_tile_at_current_position s a).2.master_object
      = (if s.placed_tiles.erase (poseKey a) = ∅ then none else some ()) ∧
    (delete_tile_at_current_position s a).2.last_placed_position = none := by
  simp [delete_tile_at_current_position, rebuild_structure_mesh, h,
        store_snapshot_placed]

theorem undo_empty (s : ToolState) (h : s.undo_log = []) :
    undo_placement s = (false, s) := by
  simp [undo_placement, h]

theorem undo_sentinel (s : ToolState) (l : List UndoSnap) (P : Finset PosKey)
    (h : s.undo_log = l ++ [⟨none, P⟩]) :
    undo_placement s = (true, ⟨∅, l, none, none⟩) := by
  simp [undo_placement, h, List.getLast?_concat, List.dropLast_concat]

theorem undo_meshsnap_master (s : ToolState) (l : List UndoSnap) (P : Finset PosKey)
    (h : s.undo_log = l ++ [⟨some (), P⟩]) (hm : s.master_object = some ()) :
    undo_placement s
      = (true, ⟨P, l, s.master_object, none⟩) := by
  cases s
  simp only at h hm
  subst h hm
  simp [undo_placement, List.getLast?_concat, List.dropLast_concat]

theorem undo_meshsnap_nomaster (s : ToolState) (l : List UndoSnap) (P : Finset PosKey)
    (h : s.undo_log = l ++ [⟨some (), P⟩]) (hm : s.master_object = none) :
    undo_placement s
      = (false, { s with undo_log := l }) := by
  cases s
  simp only at h hm
  subst h hm
  simp [undo_placement, List.getLast?_concat, List.dropLast_concat]

/-- Claim C1: placement is exactly-once.  If the canonical key of the
current pose is not yet placed, the commit succeeds and inserts the key
into the placed-tile set; if the key is already placed (in particular,
immediately after a successful commit with the pose unchanged), the commit
returns false and the entire state — placed set, undo history, structure
and last-placed cache — is unchanged, so no undo snapshot is pushed. -/
theorem place_exactly_once (s : ToolState) (a : PoseArgs) :
    (poseKey a ∉ s.placed_tiles →
      (place_tile_at_current_position s a).1 = true ∧
      poseKey a ∈ (place_tile_at_current_position s a).2.placed_tiles) ∧
    (poseKey a ∈ s.placed_tiles →
      place_tile_at_current_position s a = (false, s)) := by
  constructor
  · intro h
    obtain ⟨h1, h2, -⟩ := place_free s a h
    exact ⟨h1, h2 ▸ Finset.mem_insert_self _ _⟩
  · exact place_occupied s a

/-- Witness for C1 at a concrete pose: the first commit from the initial
state succeeds, and the immediately repeated commit at the unchanged pose
returns false with the state unchanged. -/
theorem place_exactly_once_witness :
    (place_tile_at_current_position initState (wArgs 0)).1 = true ∧
    place_tile_at_current_position
        (place_tile_at_current_position initState (wArgs 0)).2 (wArgs 0)
      = (false, (place_tile_at_current_position initState (wArgs 0)).2) := by
  have h0 : poseKey (wArgs 0) ∉ initState.placed_tiles :=
    Finset.not_mem_empty _
  have h1 := (place_exactly_once initState (wArgs 0)).1 h0
  exact ⟨h1.1,
    (place_exactly_once (place_tile_at_current_position initState (wArgs 0)).2
      (wArgs 0)).2 h1.2⟩

/-- Claim C10: deleting at an unoccupied pose is a complete no-op: when
the canonical key of the current pose (the same rounded tuple used by a
commit) is not in the placed-tile set, delete returns with the state
completely unchanged — no key removed, no undo snapshot pushed — and no
structure rebuild is requested (the Boolean result is false). -/
theorem delete_unoccupied_noop (s : ToolState) (a : PoseArgs)
    (h : poseKey a ∉ s.placed_tiles) :
    delete_tile_at_current_position s a = (false, s) :=
  delete_absent s a h

/-- Witness for C10: deleting at a pose never committed, from the initial
state, changes nothing and requests no rebuild. -/
theorem delete_unoccupied_noop_witness :
    delete_tile_at_current_position initState (wArgs 3) = (false, initState) :=
  delete_unoccupied_noop initState (wArgs 3) (Finset.not_mem_empty _)

theorem leakLog_length (n : ℕ) : (leakLog n).length = 2 * n := by
  induction n with
  | zero => rfl
  | succ n ih => simp [leakLog, ih]; omega

theorem leakStep_eval (s : ToolState) (hp : s.placed_tiles = ∅)
    (hm : s.master_object = none) (hlen : s.undo_log.length ≤ 18) :
    leakStep s
      = ⟨∅, s.undo_log ++ [⟨none, ∅⟩, ⟨some (), {poseKey leakArgs}⟩],
         none, none⟩ := by
  have hnot : poseKey leakArgs ∉ s.placed_tiles := by
    rw [hp]; exact Finset.not_mem_empty _
  obtain ⟨hb, hpl, hlog, hms, hlast⟩ := place_free s leakArgs hnot
  have hpl1 : (place_tile_at_current_position s leakArgs).2.placed_tiles
      = {poseKey leakArgs} := by
    rw [hpl, hp, Finset.insert_empty]
  have hlog1 : (place_tile_at_current_position s leakArgs).2.undo_log
      = s.undo_log ++ [⟨none, ∅⟩] := by
    rw [hlog, store_snapshot_log_none s hm, hp]
  have hmem : poseKey leakArgs
      ∈ (place_tile_at_current_position s leakArgs).2.placed_tiles := by
    rw [hpl1]; exact Finset.mem_singleton_self _
  obtain ⟨db, dpl, dlog, dms, dlast⟩ := delete_present _ leakArgs hmem
  have herase : ({poseKey leakArgs} : Finset PosKey).erase (poseKey leakArgs)
      = ∅ := by simp
  have hkey : leakStep s
      = (delete_tile_at_current_position
          (place_tile_at_current_position s leakArgs).2 leakArgs).2 := rfl
  have hlog2 : (delete_tile_at_current_position
      (place_tile_at_current_position s leakArgs).2 leakArgs).2.undo_log
      = s.undo_log ++ [⟨none, ∅⟩, ⟨some (), {poseKey leakArgs}⟩] := by
    rw [dlog, store_snapshot_log_some _ hms, hlog1, hpl1]
    rw [if_neg (by simp; omega)]
    simp
  rw [hkey]
  refine ToolState.ext ?_ ?_ ?_ ?_
  · rw [dpl, hpl1]; exact herase
  · exact hlog2
  · rw [dms, hpl1, herase]; simp
  · exact dlast

theorem leakState_eval : ∀ n, n ≤ 10 →
    leakState n = ⟨∅, leakLog n, none, none⟩ := by
  intro n
  induction n with
  | zero => intro _; rfl
  | succ n ih =>
    intro h
    have hn := ih (by omega)
    have hit : leakState (n + 1) = leakStep (leakState n) :=
      Function.iterate_succ_apply' leakStep n initState
    rw [hit, hn, leakStep_eval _ rfl rfl (by simp [leakLog_length]; omega)]
    rfl

/-- Claim C3 is violated by the code: store_undo_snapshot caps the history
at 20 entries only on the branch where a structure exists; the
no-structure branch appends a sentinel snapshot with no eviction.  After
ten commit-delete cycles (20 pushes) the history holds 20 entries and the
structure is gone, so the 21st push — the snapshot for the next commit —
leaves the undo history at 21 entries, exceeding the documented 20-entry
bound. -/
theorem undo_log_exceeds_cap :
    (place_tile_at_current_position (leakState 10) leakArgs).2.undo_log.length
      = 21 := by
  have h10 := leakState_eval 10 (le_refl 10)
  have hnot : poseKey leakArgs ∉ (leakState 10).placed_tiles := by
    rw [h10]; exact Finset.not_mem_empty _
  obtain ⟨-, -, hlog, -, -⟩ := place_free _ leakArgs hnot
  have hm : (leakState 10).master_object = none := by rw [h10]
  rw [hlog, store_snapshot_log_none _ hm]
  rw [show (leakState 10).undo_log = leakLog 10 from by rw [h10]]
  simp [leakLog_length]

theorem undoN_succ (n : ℕ) (s : ToolState) :
    undoN (n + 1) s = undoN n (undo_placement s).2 := rfl

theorem undoN_one (s : ToolState) : undoN 1 s = (undo_placement s).2 := rfl

theorem undoN_add (m n : ℕ) (s : ToolState) :
    undoN (m + n) s = undoN n (undoN m s) := by
  induction m generalizing s with
  | zero => rw [Nat.zero_add]; rfl
  | succ m ih =>
    rw [show m + 1 + n = (m + n) + 1 from by omega]
    exact ih (undo_placement s).2

theorem undo_two_cycle (l : List UndoSnap) (P : Finset PosKey) :
    undoN 2 (⟨∅, l ++ [⟨none, ∅⟩, ⟨some (), P⟩], none, none⟩ : ToolState)
      = ⟨∅, l, none, none⟩ := by
  have h1 := undo_meshsnap_nomaster
    (⟨∅, l ++ [⟨none, ∅⟩, ⟨some (), P⟩], none, none⟩ : ToolState)
    (l ++ [⟨none, ∅⟩]) P (by simp) rfl
  show (undo_placement (undo_placement _).2).2 = _
  rw [h1]
  rw [undo_sentinel _ l ∅ rfl]

theorem undo_leak_pairs : ∀ j n, j ≤ n →
    undoN (2 * j) (⟨∅, leakLog n, none, none⟩ : ToolState)
      = ⟨∅, leakLog (n - j), none, none⟩ := by
  intro j
  induction j with
  | zero => intro n _; rfl
  | succ j ih =>
    intro n h
    rw [show 2 * (j + 1) = 2 + 2 * j from by ring, undoN_add]
    obtain ⟨m, rfl⟩ : ∃ m, n = m + 1 := ⟨n - 1, by omega⟩
    rw [show leakLog (m + 1)
        = leakLog m ++ [⟨none, ∅⟩, ⟨some (), {poseKey leakArgs}⟩] from rfl]
    rw [undo_two_cycle, ih m (by omega)]
    congr 2
    omega

/-- Claim C2, counterexample to the clause that beyond 20 operations only
the most recent 20 are reversible: after ten commit-delete cycles and one
more commit (21 ledger-mutating operations, all 21 snapshots retained
because the sentinel pushes are never capped), twenty undos still leave a
snapshot, and the 21st undo succeeds. -/
theorem undo_beyond_cap_counterexample :
    (undo_placement (undoN 20
        (place_tile_at_current_position (leakState 10) leakArgs).2)).1
      = true := by
  have h10 := leakState_eval 10 (le_refl 10)
  have hnot : poseKey leakArgs ∉ (leakState 10).placed_tiles := by
    rw [h10]; exact Finset.not_mem_empty _
  have hstar : (place_tile_at_current_position (leakState 10) leakArgs).2
      = ⟨{poseKey leakArgs}, leakLog 10 ++ [⟨none, ∅⟩], some (),
         some ((0, 0, 0), (0, 0, 0), 2)⟩ := by
    obtain ⟨-, hpl, hlog, hms, hlast⟩ := place_free _ leakArgs hnot
    have hm : (leakState 10).master_object = none := by rw [h10]
    refine ToolState.ext ?_ ?_ ?_ ?_
    · rw [hpl, show (leakState 10).placed_tiles = ∅ from by rw [h10]]
      rfl
    · rw [hlog, store_snapshot_log_none _ hm,
          show (leakState 10).undo_log = leakLog 10 from by rw [h10],
          show (leakState 10).placed_tiles = ∅ from by rw [h10]]
    · rw [hms]
    · rw [hlast]
      rfl
  have e1 : undo_placement (⟨{poseKey leakArgs}, leakLog 10 ++ [⟨none, ∅⟩],
      some (), some ((0, 0, 0), (0, 0, 0), 2)⟩ : ToolState)
      = (true, ⟨∅, leakLog 10, none, none⟩) :=
    undo_sentinel _ (leakLog 10) ∅ rfl
  have e2 : undoN 18 (⟨∅, leakLog 10, none, none⟩ : ToolState)
      = ⟨∅, leakLog 1, none, none⟩ := by
    rw [show (18 : ℕ) = 2 * 9 from rfl]
    exact undo_leak_pairs 9 10 (by omega)
  have e3 : undo_placement (⟨∅, leakLog 1, none, none⟩ : ToolState)
      = (false, ⟨∅, [⟨none, ∅⟩], none, none⟩) :=
    undo_meshsnap_nomaster _ [⟨none, ∅⟩] {poseKey leakArgs} rfl rfl
  have e4 : (undo_placement (⟨∅, [⟨none, ∅⟩], none, none⟩ : ToolState)).1 = true := by
    rw [undo_sentinel _ [] ∅ rfl]
  rw [hstar]
  rw [show (20 : ℕ) = 19 + 1 from rfl, undoN_succ 19, e1]
  dsimp only
  rw [show (19 : ℕ) = 18 + 1 from rfl, undoN_add 18 1, e2, undoN_one, e3]
  dsimp only
  exact e4

theorem inv_init : Inv initState := by
  constructor
  · simp [initState]
  · intro snap hsnap
    simp [initState] at hsnap

theorem inv_store_snaps (s : ToolState) (h : Inv s) :
    ∀ snap ∈ (store_undo_snapshot s).undo_log,
      (snap.mesh = none ↔ snap.positions = ∅) := by
  intro snap hsnap
  cases hmo : s.master_object with
  | none =>
    rw [store_snapshot_log_none s hmo] at hsnap
    rcases List.mem_append.mp hsnap with h1 | h2
    · exact h.2 snap h1
    · have he : snap = ⟨none, s.placed_tiles⟩ := by simpa using h2
      subst he
      exact iff_of_true rfl (h.1.mp hmo)
  | some u =>
    have hmo' : s.master_object = some () := by rw [hmo]
    rw [store_snapshot_log_some s hmo'] at hsnap
    have hsnap' : snap ∈ s.undo_log ++ [(⟨some (), s.placed_tiles⟩ : UndoSnap)] := by
      by_cases hlen :
          (s.undo_log ++ [(⟨some (), s.placed_tiles⟩ : UndoSnap)]).length > 20
      · rw [if_pos hlen] at hsnap
        exact List.mem_of_mem_tail hsnap
      · rw [if_neg hlen] at hsnap
        exact hsnap
    rcases List.mem_append.mp hsnap' with h1 | h2
    · exact h.2 snap h1
    · have he : snap = ⟨some (), s.placed_tiles⟩ := by simpa using h2
      subst he
      refine iff_of_false (by simp) ?_
      intro hc
      rw [h.1.mpr hc] at hmo'
      exact Option.noConfusion hmo'

theorem inv_place (s : ToolState) (a : PoseArgs) (h : Inv s) :
    Inv (place_tile_at_current_position s a).2 := by
  by_cases hmem : poseKey a ∈ s.placed_tiles
  · rw [place_occupied s a hmem]
    exact h
  · obtain ⟨-, hpl, hlog, hms, -⟩ := place_free s a hmem
    constructor
    · rw [hms, hpl]
      exact iff_of_false (by simp) (Finset.insert_ne_empty _ _)
    · intro snap hsnap
      rw [hlog] at hsnap
      exact inv_store_snaps s h snap hsnap

theorem inv_delete (s : ToolState) (a : PoseArgs) (h : Inv s) :
    Inv (delete_tile_at_current_position s a).2 := by
  by_cases hmem : poseKey a ∈ s.placed_tiles
  · obtain ⟨-, hpl, hlog, hms, -⟩ := delete_present s a hmem
    constructor
    · rw [hms, hpl]
      split_ifs with hc
      · exact iff_of_true rfl hc
      · exact iff_of_false (by simp) hc
    · intro snap hsnap
      rw [hlog] at hsnap
      exact inv_store_snaps s h snap hsnap
  · rw [delete_absent s a hmem]
    exact h

theorem inv_undo (s : ToolState) (h : Inv s) :
    Inv (undo_placement s).2 := by
  rcases List.eq_nil_or_concat s.undo_log with hnil | ⟨l, snap, hl⟩
  · rw [undo_empty s hnil]
    exact h
  · rw [List.concat_eq_append] at hl
    have hmemsnap : snap ∈ s.undo_log := by rw [hl]; simp
    obtain ⟨m, P⟩ := snap
    cases m with
    | none =>
      rw [undo_sentinel s l P hl]
      constructor
      · simp
      · intro x hx
        exact h.2 x (by rw [hl]; exact List.mem_append_left _ hx)
    | some u =>
      cases u
      cases hmo : s.master_object with
      | none =>
        rw [undo_meshsnap_nomaster s l P hl hmo]
        constructor
        · exact h.1
        · intro x hx
          exact h.2 x (by rw [hl]; exact List.mem_append_left _ hx)
      | some v =>
        cases v
        rw [undo_meshsnap_master s l P hl hmo]
        constructor
        · rw [hmo]
          refine iff_of_false (by simp) ?_
          intro hc
          have hiff := h.2 ⟨some (), P⟩ hmemsnap
          exact Option.noConfusion (hiff.mpr hc)
        · intro x hx
          exact h.2 x (by rw [hl]; exact List.mem_append_left _ hx)

theorem reachable_inv (s : ToolState) (h : Reachable s) : Inv s := by
  induction h with
  | init => exact inv_init
  | place s a _ ih => exact inv_place s a ih
  | delete s a _ ih => exact inv_delete s a ih
  | undo s _ ih => exact inv_undo s ih

theorem cap_tail_shape (pre : List UndoSnap) (F : UndoSnap) (rest : List UndoSnap)
    (snap : UndoSnap) (hlen : rest.length ≤ 18) :
    (if ((pre ++ F :: rest) ++ [snap]).length > 20
     then ((pre ++ F :: rest) ++ [snap]).tail
     else (pre ++ F :: rest) ++ [snap])
      = (if ((pre ++ F :: rest) ++ [snap]).length > 20 then pre.tail else pre)
        ++ F :: (rest ++ [snap]) := by
  split_ifs with hc
  · have hpre : pre ≠ [] := by
      intro hnil
      subst hnil
      simp at hc
      omega
    obtain ⟨x, xs, rfl⟩ := List.exists_cons_of_ne_nil hpre
    simp
  · simp

theorem commits_shape_aux :
    ∀ (ks : List PoseArgs) (s : ToolState) (pre : List UndoSnap) (F : UndoSnap)
      (rest : List UndoSnap),
      s.undo_log = pre ++ F :: rest →
      (∀ x ∈ rest, x.mesh = some ()) →
      s.master_object = some () →
      rest.length + ks.length ≤ 19 →
      commits_succeed ks s = true →
      ∃ pre' rest',
        (commits ks s).undo_log = pre' ++ F :: rest' ∧
        rest'.length = rest.length + ks.length ∧
        (∀ x ∈ rest', x.mesh = some ()) ∧
        (commits ks s).master_object = some () := by
  intro ks
  induction ks with
  | nil =>
    intro s pre F rest hlog hrest hm _ _
    exact ⟨pre, rest, hlog, by simp, hrest, hm⟩
  | cons a ks ih =>
    intro s pre F rest hlog hrest hm hlen hsucc
    simp only [List.length_cons] at hlen
    simp only [commits_succeed, Bool.and_eq_true] at hsucc
    obtain ⟨h1, h2⟩ := hsucc
    have hnot : poseKey a ∉ s.placed_tiles := by
      by_contra hmem
      rw [place_occupied s a hmem] at h1
      simp at h1
    obtain ⟨-, -, hlogp, hmsp, -⟩ := place_free s a hnot
    have hlog1 : (place_tile_at_current_position s a).2.undo_log
        = (if ((pre ++ F :: rest)
              ++ [(⟨some (), s.placed_tiles⟩ : UndoSnap)]).length > 20
           then pre.tail else pre)
          ++ F :: (rest ++ [⟨some (), s.placed_tiles⟩]) := by
      rw [hlogp, store_snapshot_log_some s hm, hlog]
      exact cap_tail_shape pre F rest _ (by omega)
    obtain ⟨pre', rest', hA, hB, hC, hD⟩ :=
      ih (place_tile_at_current_position s a).2 _ F
        (rest ++ [⟨some (), s.placed_tiles⟩]) hlog1
        (by
          intro x hx
          rcases List.mem_append.mp hx with hx1 | hx2
          · exact hrest x hx1
          · rw [List.mem_singleton] at hx2
            subst hx2
            rfl)
        hmsp
        (by simp; omega)
        h2
    refine ⟨pre', rest', hA, ?_, hC, hD⟩
    rw [hB]
    simp
    omega

theorem undoN_restore :
    ∀ (rest : List UndoSnap) (pre : List UndoSnap) (F : UndoSnap) (s : ToolState),
      s.undo_log = pre ++ F :: rest →
      (∀ x ∈ rest, x.mesh = some ()) →
      s.master_object = some () →
      (undoN (rest.length + 1) s).placed_tiles
        = (if F.mesh = none then ∅ else F.positions) := by
  intro rest
  induction rest using List.reverseRecOn with
  | nil =>
    intro pre F s hlog _ hm
    obtain ⟨m, P⟩ := F
    rw [show ([] : List UndoSnap).length + 1 = 1 from rfl, undoN_one]
    cases m with
    | none =>
      rw [undo_sentinel s pre P hlog]
      simp
    | some u =>
      have hm' : s.master_object = some () := hm
      rw [undo_meshsnap_master s pre P (by rw [hlog]) hm']
      simp
  | append_singleton rs z ihr =>
    intro pre F s hlog hmem hm
    have hz : z.mesh = some () := hmem z (by simp)
    obtain ⟨mz, Pz⟩ := z
    simp only at hz
    subst hz
    have hlog' : s.undo_log = (pre ++ F :: rs) ++ [⟨some (), Pz⟩] := by
      rw [hlog]
      simp
    rw [show (rs ++ [(⟨some (), Pz⟩ : UndoSnap)]).length + 1
        = (rs.length + 1) + 1 from by simp]
    rw [undoN_succ]
    rw [undo_meshsnap_master s (pre ++ F :: rs) Pz hlog' hm]
    dsimp only
    exact ihr pre F _ rfl (fun x hx => hmem x (List.mem_append_left _ hx)) hm

/-- Claim C2 (amended): undo is an exact inverse of placement for up to 20
operations: from any state reachable by commits, deletes and undos, k
successful commits followed by k undos (k at most 20) restore the
placed-tile set exactly; and after 21 successful commits from the initial
state, 20 undos return to the state just after the 1st commit (its single
placed key), not to the empty set.  (The clause of the original claim
saying that beyond 20 operations only the most recent 20 are reversible
fails on the code — see the counterexample — because snapshot pushes taken
with no structure are never capped.) -/
theorem undo_exact_inverse :
    (∀ (s : ToolState) (ks : List PoseArgs),
        Reachable s → ks.length ≤ 20 → commits_succeed ks s = true →
        (undoN ks.length (commits ks s)).placed_tiles = s.placed_tiles) ∧
    (∀ (a : PoseArgs) (ks : List PoseArgs),
        ks.length = 20 → commits_succeed (a :: ks) initState = true →
        (undoN 20 (commits (a :: ks) initState)).placed_tiles = {poseKey a} ∧
        (undoN 20 (commits (a :: ks) initState)).placed_tiles ≠ ∅) := by
  have main : ∀ (s : ToolState) (ks : List PoseArgs), Inv s → ks.length ≤ 20 →
      commits_succeed ks s = true →
      (undoN ks.length (commits ks s)).placed_tiles = s.placed_tiles := by
    intro s ks hinv hlen hsucc
    cases ks with
    | nil => rfl
    | cons a ks =>
      simp only [commits_succeed, Bool.and_eq_true] at hsucc
      obtain ⟨h1, h2⟩ := hsucc
      have hklen : ks.length ≤ 19 := by
        simp at hlen
        omega
      have hnot : poseKey a ∉ s.placed_tiles := by
        by_contra hmem
        rw [place_occupied s a hmem] at h1
        simp at h1
      obtain ⟨-, -, hlogp, hmsp, -⟩ := place_free s a hnot
      cases hmo : s.master_object with
      | none =>
        have hlog1 : (place_tile_at_current_position s a).2.undo_log
            = s.undo_log ++ (⟨none, s.placed_tiles⟩ : UndoSnap) :: [] := by
          rw [hlogp, store_snapshot_log_none s hmo]
        obtain ⟨pre', rest', hA, hB, hC, hD⟩ :=
          commits_shape_aux ks (place_tile_at_current_position s a).2
            s.undo_log ⟨none, s.placed_tiles⟩ [] hlog1
            (by intro x hx; cases hx) hmsp (by simpa using hklen) h2
        rw [show commits (a :: ks) s
            = commits ks (place_tile_at_current_position s a).2 from rfl]
        rw [show (a :: ks).length = rest'.length + 1 from by simp [hB]]
        rw [undoN_restore rest' pre' _ _ hA hC hD]
        rw [if_pos rfl]
        exact (hinv.1.mp hmo).symm
      | some u =>
        have hmo' : s.master_object = some () := by rw [hmo]
        have hlog1 : (place_tile_at_current_position s a).2.undo_log
            = (if (s.undo_log
                  ++ [(⟨some (), s.placed_tiles⟩ : UndoSnap)]).length > 20
               then s.undo_log.tail else s.undo_log)
              ++ (⟨some (), s.placed_tiles⟩ : UndoSnap) :: [] := by
          rw [hlogp, store_snapshot_log_some s hmo']
          split_ifs with hc
          · have hne : s.undo_log ≠ [] := by
              intro h0
              rw [h0] at hc
              simp at hc
            obtain ⟨y, ys, hy⟩ := List.exists_cons_of_ne_nil hne
            simp [hy]
          · rfl
        obtain ⟨pre', rest', hA, hB, hC, hD⟩ :=
          commits_shape_aux ks (place_tile_at_current_position s a).2
            _ ⟨some (), s.placed_tiles⟩ [] hlog1
            (by intro x hx; cases hx) hmsp (by simpa using hklen) h2
        rw [show commits (a :: ks) s
            = commits ks (place_tile_at_current_position s a).2 from rfl]
        rw [show (a :: ks).length = rest'.length + 1 from by simp [hB]]
        rw [undoN_restore rest' pre' _ _ hA hC hD]
        rw [if_neg (by simp)]
  constructor
  · intro s ks hreach
    exact main s ks (reachable_inv s hreach)
  · intro a ks hlen hsucc
    simp only [commits_succeed, Bool.and_eq_true] at hsucc
    obtain ⟨h1, h2⟩ := hsucc
    have hnot : poseKey a ∉ initState.placed_tiles := Finset.not_mem_empty _
    obtain ⟨-, hpl, -, -, -⟩ := place_free initState a hnot
    have hreach1 : Reachable (place_tile_at_current_position initState a).2 :=
      Reachable.place initState a Reachable.init
    have hmain := main _ ks (reachable_inv _ hreach1) (by omega) h2
    have hplaced : (place_tile_at_current_position initState a).2.placed_tiles
        = {poseKey a} := by
      rw [hpl]
      rfl
    rw [show commits (a :: ks) initState
        = commits ks (place_tile_at_current_position initState a).2 from rfl]
    rw [show (20 : ℕ) = ks.length from hlen.symm]
    rw [hmain, hplaced]
    exact ⟨rfl, Finset.singleton_ne_empty _⟩

theorem round6_natCast (n : ℕ) : round6 ((n : ℚ)) = n := by
  rw [round6]
  rw [show ((n : ℚ) * 1000000) = (((n * 1000000 : ℕ) : ℤ) : ℚ) from by push_cast; ring]
  rw [pyRound_intCast]
  push_cast
  field_simp

theorem poseKey_wArgs (n : ℕ) :
    poseKey (wArgs n) = ⟨(n : ℚ), 0, 0, 0, 0, 0, 2, false⟩ := by
  have h0 : round6 0 = 0 := by simpa using round6_natCast 0
  simp [poseKey, mkPosKey, wArgs, round6_natCast, h0]

theorem poseKey_wArgs_inj (m n : ℕ) (h : poseKey (wArgs m) = poseKey (wArgs n)) :
    m = n := by
  rw [poseKey_wArgs, poseKey_wArgs] at h
  have hpx : ((m : ℚ)) = ((n : ℚ)) := congrArg PosKey.px h
  exact_mod_cast hpx

theorem commits_succeed_of_fresh :
    ∀ (ks : List PoseArgs) (s : ToolState),
      (∀ x ∈ ks, poseKey x ∉ s.placed_tiles) →
      (ks.map poseKey).Nodup →
      commits_succeed ks s = true := by
  intro ks
  induction ks with
  | nil => intro s _ _; rfl
  | cons a ks ih =>
    intro s hfresh hnd
    simp only [List.map_cons, List.nodup_cons] at hnd
    simp only [commits_succeed, Bool.and_eq_true]
    have hnot : poseKey a ∉ s.placed_tiles := hfresh a (by simp)
    obtain ⟨h1, hpl, -, -, -⟩ := place_free s a hnot
    refine ⟨h1, ih _ ?_ hnd.2⟩
    intro x hx
    rw [hpl, Finset.mem_insert]
    rintro (hc | hc)
    · exact hnd.1 (hc ▸ List.mem_map_of_mem poseKey hx)
    · exact hfresh x (List.mem_cons_of_mem a hx) hc

/-- Witness for C2 at concrete inputs: two distinct commits from the
initial state followed by two undos restore the empty placed set, and 21
distinct commits followed by 20 undos leave a non-empty placed set. -/
theorem undo_exact_inverse_witness :
    (undoN 2 (commits [wArgs 0, wArgs 1] initState)).placed_tiles
      = initState.placed_tiles ∧
    (undoN 20 (commits
        (wArgs 0 :: (List.range 20).map fun n => wArgs (n + 1))
        initState)).placed_tiles ≠ ∅ := by
  have hfresh : ∀ (ks : List PoseArgs) (x : PoseArgs), x ∈ ks →
      poseKey x ∉ initState.placed_tiles :=
    fun _ _ _ => Finset.not_mem_empty _
  have hsucc1 : commits_succeed [wArgs 0, wArgs 1] initState = true := by
    refine commits_succeed_of_fresh _ _ (hfresh _) ?_
    simp only [List.map_cons, List.map_nil, List.nodup_cons]
    refine ⟨?_, ?_, ?_⟩
    · intro hc
      rw [List.mem_singleton] at hc
      exact absurd (poseKey_wArgs_inj 0 1 hc) (by omega)
    · exact List.not_mem_nil _
    · exact List.nodup_nil
  have hsucc2 : commits_succeed
      (wArgs 0 :: (List.range 20).map fun n => wArgs (n + 1)) initState
        = true := by
    refine commits_succeed_of_fresh _ _ (hfresh _) ?_
    simp only [List.map_cons, List.map_map, List.nodup_cons]
    constructor
    · intro hc
      simp only [List.mem_map, List.mem_range, Function.comp] at hc
      obtain ⟨x, -, hx⟩ := hc
      exact absurd (poseKey_wArgs_inj (x + 1) 0 hx) (by omega)
    · refine List.Nodup.map ?_ (List.nodup_range 20)
      intro m n hmn
      have := poseKey_wArgs_inj (m + 1) (n + 1) hmn
      omega
  constructor
  · exact undo_exact_inverse.1 initState [wArgs 0, wArgs 1]
      Reachable.init (by norm_num) hsucc1
  · exact (undo_exact_inverse.2 (wArgs 0)
      ((List.range 20).map fun n => wArgs (n + 1)) (by simp) hsucc2).2

/-- Claim C9: for every camera orientation matrix the view projection
returns two vectors that are each exactly a signed unit vector along world
X or world Y (never diagonal, never with a Z component), and on missing or
invalid camera data it returns forward (0,1,0) and right (1,0,0). -/
theorem view_vectors_cardinal :
    (∀ region_data : Option Mat3,
        isCardinalAxis (get_view_relative_vectors region_data).1 ∧
        isCardinalAxis (get_view_relative_vectors region_data).2) ∧
    get_view_relative_vectors none = (⟨0, 1, 0⟩, ⟨1, 0, 0⟩) := by
  refine ⟨?_, rfl⟩
  intro region_data
  cases region_data with
  | none =>
    exact ⟨Or.inr (Or.inr (Or.inl rfl)), Or.inl rfl⟩
  | some m =>
    rw [get_view_relative_vectors]
    constructor <;> dsimp only <;> split_ifs <;>
      simp [isCardinalAxis]

end TileBrush
